import Mathlib

/-
Verification development for the code-analyzer-core orchestrator
(`src/code-analyzer.ts`).  JavaScript numbers are modelled as rationals
(`ℚ`): `Number.isInteger(v)` becomes `v.den = 1`, and `Number.MAX_VALUE`
is the exact rational value of the largest finite double.  Fallible
operations are modelled with `Except`; the emission of events on the
synchronous event bus is modelled by returning the list of emitted
events alongside the result.  File-system queries (`fs.existsSync`,
`fs.statSync(..).isDirectory()`, `fs.statSync(..).isFile()`) and
`toAbsolutePath` are modelled as an explicit environment of pure
functions, so every definition stays executable.
-/

namespace CodeAnalyzerCore

/-- Decidable equality for `Except`, used to evaluate concrete runs. -/
instance {ε α : Type} [DecidableEq ε] [DecidableEq α] : DecidableEq (Except ε α) := fun a b =>
  match a, b with
  | .ok x, .ok y => if h : x = y then .isTrue (by rw [h]) else .isFalse (by simp [h])
  | .error x, .error y => if h : x = y then .isTrue (by rw [h]) else .isFalse (by simp [h])
  | .ok _, .error _ => .isFalse (by simp)
  | .error _, .ok _ => .isFalse (by simp)

/-- File-system capability consumed by the validations: existence and
file/directory type checks, as pure predicates on path strings. -/
structure FileSystem where
  existsSync : String → Bool
  isDirectory : String → Bool
  isFile : String → Bool

/-- Ambient environment: the file system together with the
`toAbsolutePath` path-canonicalisation function from `utils`. -/
structure Env where
  fs : FileSystem
  toAbsolutePath : String → String

/-- Workspace handle: unique id plus the raw list of (absolute)
files/folders, exposing `getFilesAndFolders`. -/
structure Workspace where
  workspaceId : String
  filesAndFolders : List String
deriving DecidableEq

/-- The raw files/folders of a workspace. -/
def Workspace.getFilesAndFolders (w : Workspace) : List String := w.filesAndFolders

/-- A path start point handed to engines: a file, optionally qualified
with a method name (`engApi.PathPoint`). -/
structure PathPoint where
  file : String
  methodName : Option String := none
deriving DecidableEq

/-- One source location of a violation (`engApi.CodeLocation`); line and
column numbers are JavaScript numbers, so rationals here. -/
structure CodeLocation where
  file : String
  startLine : ℚ
  startColumn : ℚ
  endLine : Option ℚ := none
  endColumn : Option ℚ := none
deriving DecidableEq

/-- A violation reported by an engine (`engApi.Violation`). -/
structure Violation where
  ruleName : String
  message : String
  codeLocations : List CodeLocation
  primaryLocationIndex : ℚ
  resourceUrls : List String := []
deriving DecidableEq

/-- Raw run results returned by an engine (`engApi.EngineRunResults`). -/
structure EngineRunResults where
  violations : List Violation
deriving DecidableEq

/-- The orchestrator-level run options: workspace plus optional raw path
start point strings. -/
structure RunOptions where
  workspace : Workspace
  pathStartPoints : Option (List String) := none
deriving DecidableEq

/-- The validated run options passed to engines (`engApi.RunOptions`):
workspace plus optional parsed path start points. -/
structure EngineRunOptions where
  workspace : Workspace
  pathStartPoints : Option (List PathPoint) := none
deriving DecidableEq

/-- A rule description as reported by an engine (`engApi.RuleDescription`,
restricted to the fields the orchestrator reads or overrides). -/
structure RuleDescription where
  name : String
  severityLevel : Nat
  tags : List String
deriving DecidableEq

/-- A catalog rule (`RuleImpl`): an engine name paired with a rule
description. -/
structure Rule where
  engineName : String
  description : RuleDescription
deriving DecidableEq

/-- The name of a catalog rule. -/
def Rule.getName (r : Rule) : String := r.description.name

/-- Modelled from the spec: `RuleSelectionImpl` lives in the absent
`rules` module.  Per the spec it is an immutable partition of the
selected rules by engine name supporting lookup and enumeration; we
keep the rules in addition order and derive the partition. -/
structure RuleSelection where
  rules : List Rule
deriving DecidableEq

/-- Keeps the first occurrence of every string, dropping later
duplicates; models enumeration of the keys of an insertion-ordered map. -/
def firstOccurrences (seen : List String) : List String → List String
  | [] => []
  | n :: rest =>
    if seen.contains n then firstOccurrences seen rest
    else n :: firstOccurrences (n :: seen) rest

/-- The engine names of a selection, in first-addition order. -/
def RuleSelection.getEngineNames (sel : RuleSelection) : List String :=
  firstOccurrences [] (sel.rules.map (·.engineName))

/-- The selected rules of one engine, in addition order. -/
def RuleSelection.getRulesFor (sel : RuleSelection) (engineName : String) : List Rule :=
  sel.rules.filter (fun r => r.engineName == engineName)

/-- Lookup of a selected rule by engine and rule name; `none` models the
throw of `RuleSelection.getRule` on a missing rule. -/
def RuleSelection.getRule? (sel : RuleSelection) (engineName ruleName : String) : Option Rule :=
  (sel.getRulesFor engineName).find? (fun r => r.getName == ruleName)

/-- Modelled from the spec: log levels of the absent `events` module. -/
inductive LogLevel where
  | Error
  | Warn
  | Info
  | Debug
deriving DecidableEq

/-- The parameterised message catalog of `messages`: one constructor per
message key used by `code-analyzer.ts`, carrying the template
parameters structurally.  `rawError` stands for an error thrown by
external plugin/engine code that the orchestrator propagates unwrapped. -/
inductive Msg where
  | rawError (message : String)
  | EngineFromFutureApiDetected (apiVersion : ℚ) (engineNames : String) (supportedVersion : ℚ)
  | DuplicateEngine (engineName : String)
  | PluginErrorFromGetAvailableEngineNames (message : String)
  | PluginErrorFromCreateEngine (engineName message : String)
  | EngineNameContradiction (requestedName actualName : String)
  | EngineAdded (engineName : String)
  | RunningWithRunOptions (engineRunOptions : EngineRunOptions)
  | RunningEngineWithRules (engineName : String) (ruleNames : List String)
  | RulePropertyOverriddenSeverity (ruleName engineName : String) (oldValue newValue : Nat)
  | RulePropertyOverriddenTags (ruleName engineName : String) (oldValue newValue : List String)
  | AtLeastOneFileOrFolderMustBeIncluded
  | FileOrFolderDoesNotExist (absPath : String)
  | PathStartPointFileDoesNotExist (pathStartPointStr absPath : String)
  | PathStartPointWithMethodMustNotBeFolder (pathStartPointStr absPath : String)
  | InvalidPathStartPoint (pathStartPointStr : String)
  | PathStartPointMustBeInsideWorkspace (file : String) (filesAndFolders : List String)
  | EngineReturnedMultipleRulesWithSameName (engineName ruleName : String)
  | EngineReturnedViolationForUnselectedRule (engineName ruleName : String)
  | EngineReturnedViolationWithInvalidPrimaryLocationIndex
      (engineName ruleName : String) (index : ℚ) (locationCount : Nat)
  | EngineReturnedViolationWithCodeLocationFileThatDoesNotExist (engineName ruleName absPath : String)
  | EngineReturnedViolationWithCodeLocationFileAsFolder (engineName ruleName absPath : String)
  | EngineReturnedViolationWithCodeLocationWithInvalidLineOrColumn
      (engineName ruleName fieldName : String) (value : ℚ)
  | EngineReturnedViolationWithCodeLocationWithEndLineBeforeStartLine
      (engineName ruleName : String) (endLine startLine : ℚ)
  | EngineReturnedViolationWithCodeLocationWithEndColumnBeforeStartColumnOnSameLine
      (engineName ruleName : String) (endColumn startColumn : ℚ)
deriving DecidableEq

/-- Modelled from the spec: the per-engine entry of the aggregate
`RunResults` of the absent `results` module — either validated normal
results (`EngineRunResultsImpl`) or the `UnexpectedErrorEngineRunResults`
marker carrying the causing error. -/
inductive EngineRunResultsEntry where
  | normal (engineName : String) (results : EngineRunResults)
  | unexpectedError (engineName : String) (error : String)
deriving DecidableEq

/-- Modelled from the spec: the events of the absent `events` module that
`code-analyzer.ts` emits itself (log, per-engine progress, per-engine
results).  The injectable clock only stamps times on events, so
timestamps are omitted; forwarded engine-log events are outside the
claims. -/
inductive Event where
  | log (logLevel : LogLevel) (message : Msg)
  | engineProgress (engineName : String) (percentComplete : Nat)
  | engineResults (results : EngineRunResultsEntry)
deriving DecidableEq

/-- An engine instance as consumed by the orchestrator (`engApi.Engine`):
its reported name, `describeRules` and `runRules`, the latter two
fallible with an opaque error payload. -/
structure Engine where
  name : String
  describeRules : Workspace → Except String (List RuleDescription)
  runRules : List String → EngineRunOptions → Except String EngineRunResults

/-- The opaque per-engine configuration mapping. -/
def ConfigObject := List (String × String)

/-- Severity/tags overrides for one (engine, rule) pair. -/
structure RuleOverride where
  severity : Option Nat := none
  tags : Option (List String) := none

/-- The already-loaded configuration provider. -/
structure CodeAnalyzerConfig where
  getEngineConfigFor : String → ConfigObject
  getRuleOverrideFor : String → String → RuleOverride

/-- An engine plugin (`engApi.EnginePluginV1`): API version, declared
engine names (fallible, since the plugin may throw), and the fallible
engine factory. -/
structure PluginModel where
  getApiVersion : ℚ
  getAvailableEngineNames : Except String (List String)
  createEngine : String → ConfigObject → Except String Engine

/-- Modelled from the spec: the orchestrator's supported engine API
version; its numeric value is immaterial to the claims. -/
def ENGINE_API_VERSION : ℚ := 1

/-- The exact rational value of `Number.MAX_VALUE`,
`(2 ^ 53 - 1) * 2 ^ 971`, written as a literal so it evaluates. -/
def NUMBER_MAX_VALUE : ℚ :=
  ((179769313486231570814527423731704356798070567525844996598917476803157260780028538760589558632766878171540458953514382464234321326889464182768467546703537516986049910576551282076245490090389328944075868508455133942304583236903222948165808559332123348274797826204144723168738177180919299881250404026184124858368 : ℤ) : ℚ)

/-- Translation of `isIntegerBetween`: `value >= leftBound && value <=
rightBound && Number.isInteger(value)`. -/
def isIntegerBetween (value leftBound rightBound : ℚ) : Bool :=
  decide (leftBound ≤ value) && decide (value ≤ rightBound) && (value.den == 1)

/-- Translation of `isValidLineOrColumn`: an integer between 1 and
`Number.MAX_VALUE`. -/
def isValidLineOrColumn (value : ℚ) : Bool :=
  isIntegerBetween value 1 NUMBER_MAX_VALUE

/-- Translation of `validateViolationRuleName`: the violation's rule must
be found in the selection for the engine, else a contract-violation
error. -/
def validateViolationRuleName (violation : Violation) (engineName : String)
    (ruleSelection : RuleSelection) : Except Msg Unit :=
  match ruleSelection.getRule? engineName violation.ruleName with
  | some _ => .ok ()
  | none => .error (.EngineReturnedViolationForUnselectedRule engineName violation.ruleName)

/-- Translation of `validateViolationPrimaryLocationIndex`: the index
must be an integer between 0 and `codeLocations.length - 1`. -/
def validateViolationPrimaryLocationIndex (violation : Violation) (engineName : String) :
    Except Msg Unit :=
  if !(isIntegerBetween violation.primaryLocationIndex 0
        (((violation.codeLocations.length : ℤ) - 1 : ℤ) : ℚ)) then
    .error (.EngineReturnedViolationWithInvalidPrimaryLocationIndex
      engineName violation.ruleName violation.primaryLocationIndex violation.codeLocations.length)
  else
    .ok ()

/-- Translation of the body of the `validateViolationCodeLocations` loop
for one code location: existence and file-type checks, then the
line/column constraints, with the `endColumn` checks nested under the
`endLine !== undefined` branch exactly as in the source. -/
def validateSingleCodeLocation (env : Env) (engineName ruleName : String)
    (codeLocation : CodeLocation) : Except Msg Unit :=
  let absFile := env.toAbsolutePath codeLocation.file
  if !(env.fs.existsSync absFile) then
    .error (.EngineReturnedViolationWithCodeLocationFileThatDoesNotExist engineName ruleName absFile)
  else if !(env.fs.isFile absFile) then
    .error (.EngineReturnedViolationWithCodeLocationFileAsFolder engineName ruleName absFile)
  else if !(isValidLineOrColumn codeLocation.startLine) then
    .error (.EngineReturnedViolationWithCodeLocationWithInvalidLineOrColumn
      engineName ruleName "startLine" codeLocation.startLine)
  else if !(isValidLineOrColumn codeLocation.startColumn) then
    .error (.EngineReturnedViolationWithCodeLocationWithInvalidLineOrColumn
      engineName ruleName "startColumn" codeLocation.startColumn)
  else
    match codeLocation.endLine with
    | none => .ok ()
    | some endLine =>
      if !(isValidLineOrColumn endLine) then
        .error (.EngineReturnedViolationWithCodeLocationWithInvalidLineOrColumn
          engineName ruleName "endLine" endLine)
      else if endLine < codeLocation.startLine then
        .error (.EngineReturnedViolationWithCodeLocationWithEndLineBeforeStartLine
          engineName ruleName endLine codeLocation.startLine)
      else
        match codeLocation.endColumn with
        | none => .ok ()
        | some endColumn =>
          if !(isValidLineOrColumn endColumn) then
            .error (.EngineReturnedViolationWithCodeLocationWithInvalidLineOrColumn
              engineName ruleName "endColumn" endColumn)
          else if endLine = codeLocation.startLine ∧ endColumn < codeLocation.startColumn then
            .error (.EngineReturnedViolationWithCodeLocationWithEndColumnBeforeStartColumnOnSameLine
              engineName ruleName endColumn codeLocation.startColumn)
          else
            .ok ()

/-- The `for` loop of `validateViolationCodeLocations` over the list of
code locations. -/
def validateCodeLocationList (env : Env) (engineName ruleName : String) :
    List CodeLocation → Except Msg Unit
  | [] => .ok ()
  | codeLocation :: rest => do
    validateSingleCodeLocation env engineName ruleName codeLocation
    validateCodeLocationList env engineName ruleName rest

/-- Translation of `validateViolationCodeLocations`. -/
def validateViolationCodeLocations (env : Env) (violation : Violation) (engineName : String) :
    Except Msg Unit :=
  validateCodeLocationList env engineName violation.ruleName violation.codeLocations

/-- The `for` loop of `validateEngineRunResults` over the violations:
rule-name, primary-location-index and code-location validation, in that
order, failing at the first violation that breaks an invariant. -/
def validateViolationList (env : Env) (engineName : String) (ruleSelection : RuleSelection) :
    List Violation → Except Msg Unit
  | [] => .ok ()
  | violation :: rest => do
    validateViolationRuleName violation engineName ruleSelection
    validateViolationPrimaryLocationIndex violation engineName
    validateViolationCodeLocations env violation engineName
    validateViolationList env engineName ruleSelection rest

/-- Translation of `validateEngineRunResults`. -/
def validateEngineRunResults (env : Env) (engineName : String)
    (apiEngineRunResults : EngineRunResults) (ruleSelection : RuleSelection) : Except Msg Unit :=
  validateViolationList env engineName ruleSelection apiEngineRunResults.violations

/-- Splitting of a character list at every occurrence of a separator
character, keeping empty segments — the behaviour of JavaScript
`String.prototype.split` with a one-character separator. -/
def splitOnChar (sep : Char) : List Char → List (List Char)
  | [] => [[]]
  | c :: cs =>
    let r := splitOnChar sep cs
    if c == sep then [] :: r
    else
      match r with
      | [] => [[c]]
      | h :: t => (c :: h) :: t

/-- JavaScript `s.split(sep)` for a one-character separator. -/
def jsSplit (s : String) (sep : Char) : List String :=
  (splitOnChar sep s.data).map String.mk

/-- The character class `\s` of JavaScript regular expressions. -/
def isJsWhitespace (c : Char) : Bool :=
  c == ' ' || c == '\t' || c == '\n' || c == '\r' || c == '\x0b' || c == '\x0c' ||
  c == ' ' || c == ' ' || (' ' ≤ c && c ≤ ' ') ||
  c == ' ' || c == ' ' || c == ' ' || c == ' ' ||
  c == '　' || c == '﻿'

/-- JavaScript `s.replace(/\s+;*$/, '')`: the (unique, end-anchored)
match is the longest suffix made of at least one whitespace character
followed by zero or more semicolons; when no such suffix exists the
string is unchanged.  Note the order: a semicolon standing before the
trailing whitespace is not part of the match. -/
def replaceTrailingSpacesAndSemicolons (s : String) : String :=
  let rev := s.data.reverse
  let afterSemis := rev.dropWhile (fun c => c == ';')
  let afterSpaces := afterSemis.dropWhile isJsWhitespace
  if afterSpaces.length < afterSemis.length then String.mk afterSpaces.reverse else s

/-- JavaScript `VALID_METHOD_NAME_REGEX.test`, the full-string match of
`[A-Za-z][A-Za-z0-9_]*`. -/
def isValidMethodName (s : String) : Bool :=
  match s.data with
  | [] => false
  | c :: cs => c.isAlpha && cs.all (fun d => d.isAlpha || d.isDigit || d == '_')

/-- Translation of `validateFileOrFolder`: canonicalise and require
existence. -/
def validateFileOrFolder (env : Env) (fileOrFolder : String) : Except Msg String :=
  let absFileOrFolder := env.toAbsolutePath fileOrFolder
  if !(env.fs.existsSync absFileOrFolder) then
    .error (.FileOrFolderDoesNotExist absFileOrFolder)
  else
    .ok absFileOrFolder

/-- Translation of `validatePathStartPointFile`: canonicalise, require
existence, and reject directories. -/
def validatePathStartPointFile (env : Env) (file pathStartPointStr : String) :
    Except Msg String :=
  let absFile := env.toAbsolutePath file
  if !(env.fs.existsSync absFile) then
    .error (.PathStartPointFileDoesNotExist pathStartPointStr absFile)
  else if env.fs.isDirectory absFile then
    .error (.PathStartPointWithMethodMustNotBeFolder pathStartPointStr absFile)
  else
    .ok absFile

/-- Translation of `extractEnginePathStartPoints`: split at `#`; with no
method segment the whole string is a file/folder; more than one `#` is
malformed; otherwise validate the file part, trim the method segment of
trailing whitespace/semicolons, split it at `;` and require each piece
to be a valid method name. -/
def extractEnginePathStartPoints (env : Env) (pathStartPointStr : String) :
    Except Msg (List PathPoint) :=
  let parts := jsSplit pathStartPointStr '#'
  if parts.length == 1 then
    (validateFileOrFolder env pathStartPointStr).map (fun file => [{ file := file }])
  else if parts.length > 2 then
    .error (.InvalidPathStartPoint pathStartPointStr)
  else do
    let pathStartPointFile ← validatePathStartPointFile env (parts.getD 0 "") pathStartPointStr
    let methodNames := replaceTrailingSpacesAndSemicolons (parts.getD 1 "")
    (jsSplit methodNames ';').mapM (fun methodName =>
      if !(isValidMethodName methodName) then
        .error (.InvalidPathStartPoint pathStartPointStr)
      else
        .ok { file := pathStartPointFile, methodName := some methodName })

/-- The sequential `flatMap` of `extractEnginePathStartPoints` over the
raw path start point strings, failing at the first malformed one. -/
def extractAllPathStartPoints (env : Env) : List String → Except Msg (List PathPoint)
  | [] => .ok []
  | s :: rest => do
    let points ← extractEnginePathStartPoints env s
    let restPoints ← extractAllPathStartPoints env rest
    .ok (points ++ restPoints)

/-- Translation of `fileIsUnderneath`: textual equality with a workspace
entry, or being a path-prefix descendant of a workspace folder. -/
def fileIsUnderneath (env : Env) (file : String) (filesOrFolders : List String) : Bool :=
  filesOrFolders.any (fun fileOrFolder =>
    fileOrFolder == file ||
      (env.fs.isDirectory fileOrFolder && fileOrFolder.data.isPrefixOf file.data))

/-- The loop of `validatePathStartPointsAreInsideWorkspace` over the
parsed path start points. -/
def checkPointsInside (env : Env) (filesAndFolders : List String) :
    List PathPoint → Except Msg Unit
  | [] => .ok ()
  | point :: rest =>
    if !(fileIsUnderneath env point.file filesAndFolders) then
      .error (.PathStartPointMustBeInsideWorkspace point.file filesAndFolders)
    else
      checkPointsInside env filesAndFolders rest

/-- Translation of `validatePathStartPointsAreInsideWorkspace`. -/
def validatePathStartPointsAreInsideWorkspace (env : Env)
    (engineRunOptions : EngineRunOptions) : Except Msg Unit :=
  match engineRunOptions.pathStartPoints with
  | none => .ok ()
  | some points =>
    checkPointsInside env engineRunOptions.workspace.getFilesAndFolders points

/-- Translation of `extractEngineRunOptions`: reject an empty workspace,
parse the path start points when at least one raw string was given, and
check every parsed point is inside the workspace. -/
def extractEngineRunOptions (env : Env) (runOptions : RunOptions) :
    Except Msg EngineRunOptions := do
  if runOptions.workspace.getFilesAndFolders.length == 0 then
    throw Msg.AtLeastOneFileOrFolderMustBeIncluded
  let engineRunOptions : EngineRunOptions ←
    match runOptions.pathStartPoints with
    | some strs =>
      if strs.length > 0 then do
        let points ← extractAllPathStartPoints env strs
        pure { workspace := runOptions.workspace, pathStartPoints := some points }
      else
        pure { workspace := runOptions.workspace }
    | none => pure { workspace := runOptions.workspace }
  validatePathStartPointsAreInsideWorkspace env engineRunOptions
  pure engineRunOptions

/-- The rule names passed to an engine's `runRules`: the names of the
selected rules of that engine. -/
def rulesToRunFor (ruleSelection : RuleSelection) (engineName : String) : List String :=
  (ruleSelection.getRulesFor engineName).map Rule.getName

/-- Translation of `runEngineAndValidateResults`: emit the debug log,
call the engine's `runRules`; a thrown engine error is captured as an
`unexpectedError` entry, while a validation error of the returned
results propagates. -/
def runEngineAndValidateResults (env : Env) (engines : String → Engine) (engineName : String)
    (ruleSelection : RuleSelection) (engineRunOptions : EngineRunOptions) :
    List Event × Except Msg EngineRunResultsEntry :=
  let rulesToRun := rulesToRunFor ruleSelection engineName
  let logEvent := Event.log .Debug (.RunningEngineWithRules engineName rulesToRun)
  let engine := engines engineName
  ([logEvent],
    match engine.runRules rulesToRun engineRunOptions with
    | .error error => .ok (.unexpectedError engineName error)
    | .ok apiEngineRunResults =>
      match validateEngineRunResults env engineName apiEngineRunResults ruleSelection with
      | .error m => .error m
      | .ok _ => .ok (.normal engineName apiEngineRunResults))

/-- The per-engine loop of `CodeAnalyzer.run`: progress event at 0,
engine run and validation, aggregation, progress event at 100, results
event — engine by engine; an error thrown for one engine aborts the
loop, keeping the events emitted so far. -/
def runLoop (env : Env) (engines : String → Engine) (ruleSelection : RuleSelection)
    (engineRunOptions : EngineRunOptions) :
    List String → List Event × Except Msg (List EngineRunResultsEntry)
  | [] => ([], .ok [])
  | engineName :: rest =>
    let progress0 := Event.engineProgress engineName 0
    let r := runEngineAndValidateResults env engines engineName ruleSelection engineRunOptions
    match r.2 with
    | .error m => (progress0 :: r.1, .error m)
    | .ok engineRunResults =>
      let tail := runLoop env engines ruleSelection engineRunOptions rest
      (progress0 :: r.1 ++
        [Event.engineProgress engineName 100, Event.engineResults engineRunResults] ++ tail.1,
        match tail.2 with
        | .error m => .error m
        | .ok entries => .ok (engineRunResults :: entries))

/-- Translation of `CodeAnalyzer.run`: validate the run options, emit the
debug log, then run the selection's engines sequentially; the aggregate
is the list of per-engine entries in selection order. -/
def run (env : Env) (engines : String → Engine) (ruleSelection : RuleSelection)
    (runOptions : RunOptions) : List Event × Except Msg (List EngineRunResultsEntry) :=
  match extractEngineRunOptions env runOptions with
  | .error m => ([], .error m)
  | .ok engineRunOptions =>
    let loop := runLoop env engines ruleSelection engineRunOptions ruleSelection.getEngineNames
    (Event.log .Debug (.RunningWithRunOptions engineRunOptions) :: loop.1, loop.2)

/-- The four events `CodeAnalyzer.run` emits for one engine that
completes (normally or with a captured engine error). -/
def engineBlock (ruleSelection : RuleSelection) (engineName : String)
    (entry : EngineRunResultsEntry) : List Event :=
  [Event.engineProgress engineName 0,
   Event.log .Debug (.RunningEngineWithRules engineName (rulesToRunFor ruleSelection engineName)),
   Event.engineProgress engineName 100,
   Event.engineResults entry]

/-- Translation of `createAndAddEngineIfValid`: skip (with an error log
event) a duplicate engine name, a throwing `createEngine`, and an engine
whose reported name contradicts the requested one; otherwise register
the engine.  The engines map is an insertion-ordered association list. -/
def createAndAddEngineIfValid (config : CodeAnalyzerConfig)
    (enginesMap : List (String × Engine)) (engineName : String) (plugin : PluginModel) :
    List Event × List (String × Engine) :=
  if (enginesMap.lookup engineName).isSome then
    ([Event.log .Error (.DuplicateEngine engineName)], enginesMap)
  else
    let engConf := config.getEngineConfigFor engineName
    match plugin.createEngine engineName engConf with
    | .error err => ([Event.log .Error (.PluginErrorFromCreateEngine engineName err)], enginesMap)
    | .ok engine =>
      if engineName ≠ engine.name then
        ([Event.log .Error (.EngineNameContradiction engineName engine.name)], enginesMap)
      else
        ([Event.log .Debug (.EngineAdded engineName)], enginesMap ++ [(engineName, engine)])

/-- The per-name registration pass of `addEnginePlugin` over the declared
engine names (the source awaits the independent per-name attempts
together; the duplicate-name claim concerns names registered before the
call, so the pass is modelled sequentially). -/
def addAllEngines (config : CodeAnalyzerConfig) (plugin : PluginModel)
    (enginesMap : List (String × Engine)) :
    List String → List Event × List (String × Engine)
  | [] => ([], enginesMap)
  | engineName :: rest =>
    let r := createAndAddEngineIfValid config enginesMap engineName plugin
    let r2 := addAllEngines config plugin r.2 rest
    (r.1 ++ r2.1, r2.2)

/-- Translation of `addEnginePlugin`: warn about a plugin from a newer
API (the warning itself reads the declared names, so a throwing
`getAvailableEngineNames` escapes unwrapped there, and wrapped at the
later call via `getAvailableEngineNamesFromPlugin`), then attempt to
register every declared name. -/
def addEnginePlugin (config : CodeAnalyzerConfig) (enginesMap : List (String × Engine))
    (plugin : PluginModel) : List Event × Except Msg (List (String × Engine)) :=
  match plugin.getAvailableEngineNames with
  | .error err =>
    if ENGINE_API_VERSION < plugin.getApiVersion then
      ([], .error (.rawError err))
    else
      ([], .error (.PluginErrorFromGetAvailableEngineNames err))
  | .ok names =>
    let warnEvents :=
      if ENGINE_API_VERSION < plugin.getApiVersion then
        [Event.log .Warn (.EngineFromFutureApiDetected plugin.getApiVersion
          ("\"" ++ String.intercalate "\",\"" names ++ "\"") ENGINE_API_VERSION)]
      else
        []
    let r := addAllEngines config plugin enginesMap names
    (warnEvents ++ r.1, .ok r.2)

/-- The loop of `validateRuleDescriptions` with its set of rule names
seen so far (set membership is all that is used of the set). -/
def checkDuplicateRuleNames (engineName : String) (ruleNamesSeen : List String) :
    List RuleDescription → Except Msg Unit
  | [] => .ok ()
  | ruleDescription :: rest =>
    if ruleNamesSeen.contains ruleDescription.name then
      .error (.EngineReturnedMultipleRulesWithSameName engineName ruleDescription.name)
    else
      checkDuplicateRuleNames engineName (ruleDescription.name :: ruleNamesSeen) rest

/-- Translation of `validateRuleDescriptions`: reject an engine reporting
two rules with the same name. -/
def validateRuleDescriptions (ruleDescriptions : List RuleDescription) (engineName : String) :
    Except Msg Unit :=
  checkDuplicateRuleNames engineName [] ruleDescriptions

/-- Translation of `updateRuleDescriptionWithOverrides`: apply the
configured severity/tags overrides for the rule, logging each applied
override at debug level. -/
def updateRuleDescriptionWithOverrides (config : CodeAnalyzerConfig) (engineName : String)
    (ruleDescription : RuleDescription) : List Event × RuleDescription :=
  let ruleOverride := config.getRuleOverrideFor engineName ruleDescription.name
  let afterSeverity :=
    match ruleOverride.severity with
    | some sev =>
      ([Event.log .Debug (.RulePropertyOverriddenSeverity ruleDescription.name engineName
          ruleDescription.severityLevel sev)],
        { ruleDescription with severityLevel := sev })
    | none => ([], ruleDescription)
  match ruleOverride.tags with
  | some tags =>
    (afterSeverity.1 ++ [Event.log .Debug (.RulePropertyOverriddenTags ruleDescription.name
        engineName afterSeverity.2.tags tags)],
      { afterSeverity.2 with tags := tags })
  | none => afterSeverity

/-- Translation of `getAllRulesFor`: describe the engine's rules, reject
duplicate rule names, then apply overrides and build the catalog
entries. -/
def getAllRulesFor (config : CodeAnalyzerConfig) (engine : Engine) (engineName : String)
    (workspace : Workspace) : List Event × Except Msg (List Rule) :=
  match engine.describeRules workspace with
  | .error err => ([], .error (.rawError err))
  | .ok ruleDescriptions =>
    match validateRuleDescriptions ruleDescriptions engineName with
    | .error m => ([], .error m)
    | .ok _ =>
      let updated := ruleDescriptions.map (updateRuleDescriptionWithOverrides config engineName)
      ((updated.map Prod.fst).flatten,
        .ok (updated.map (fun p => { engineName := engineName, description := p.2 })))

/-- The aggregation of `getAllRules` over the registered engines (the
source queries engines together and flattens the per-engine lists in
registration order; a failure for any engine rejects the whole
aggregation). -/
def getAllRulesList (config : CodeAnalyzerConfig) (workspace : Workspace) :
    List (String × Engine) → List Event × Except Msg (List Rule)
  | [] => ([], .ok [])
  | (engineName, engine) :: rest =>
    let r := getAllRulesFor config engine engineName workspace
    match r.2 with
    | .error m => (r.1, .error m)
    | .ok rules =>
      let r2 := getAllRulesList config workspace rest
      (r.1 ++ r2.1,
        match r2.2 with
        | .error m => .error m
        | .ok restRules => .ok (rules ++ restRules))

/-- Select options: an explicit workspace. -/
structure SelectOptions where
  workspace : Workspace
deriving DecidableEq

/-- Translation of `CodeAnalyzer.selectRules`: an empty selector list is
replaced by the single default selector; the catalog is built for the
given workspace (or for the process working directory's workspace when
no options are given) and filtered by the selectors.  The selector
matching of the absent `rules` module is a parameter
`matchesRuleSelector`. -/
def selectRules (matchesRuleSelector : Rule → String → Bool) (config : CodeAnalyzerConfig)
    (engines : List (String × Engine)) (cwdWorkspace : Workspace) (selectors : List String)
    (selectOptions : Option SelectOptions) : List Event × Except Msg RuleSelection :=
  let selectors := if selectors.length > 0 then selectors else ["Recommended"]
  let workspace :=
    match selectOptions with
    | some opts => opts.workspace
    | none => cwdWorkspace
  let r := getAllRulesList config workspace engines
  (r.1, r.2.map (fun allRules =>
    { rules := allRules.filter (fun rule => selectors.any (fun s => matchesRuleSelector rule s)) }))

/-- The per-engine entry the run loop produces when exactly the engine
named `failName` throws `error` and every other engine `n` returns the
results `res n`. -/
def runEntryFor (failName error : String) (res : String → EngineRunResults)
    (engineName : String) : EngineRunResultsEntry :=
  if engineName = failName then .unexpectedError engineName error
  else .normal engineName (res engineName)

/-
Concrete fixtures used to instantiate theorems with hypotheses.
-/

/-- An environment whose file system has every path as an existing
regular file. -/
def totalEnv : Env :=
  { fs := { existsSync := fun _ => true
            isDirectory := fun _ => false
            isFile := fun _ => true }
    toAbsolutePath := id }

/-- An environment containing exactly the regular file `src/Foo.cls`. -/
def fooEnv : Env :=
  { fs := { existsSync := fun s => s == "src/Foo.cls"
            isDirectory := fun _ => false
            isFile := fun s => s == "src/Foo.cls" }
    toAbsolutePath := id }

/-- A configuration with no overrides. -/
def emptyConfig : CodeAnalyzerConfig :=
  { getEngineConfigFor := fun _ => ([] : ConfigObject)
    getRuleOverrideFor := fun _ _ => {} }

/-- An engine that always answers `runRules` with the given results. -/
def okEngine (engineName : String) (results : EngineRunResults) : Engine :=
  { name := engineName
    describeRules := fun _ => .ok []
    runRules := fun _ _ => .ok results }

/-- An engine whose `runRules` always throws. -/
def throwingEngine (engineName message : String) : Engine :=
  { name := engineName
    describeRules := fun _ => .error message
    runRules := fun _ _ => .error message }

/-- A catalog rule with fixed description fields. -/
def mkRule (engineName ruleName : String) : Rule :=
  { engineName := engineName
    description := { name := ruleName, severityLevel := 3, tags := ["Recommended"] } }

/-- A one-entry workspace. -/
def wsOne : Workspace := { workspaceId := "w", filesAndFolders := ["proj"] }

/-- Run options over `wsOne` without path start points. -/
def roOne : RunOptions := { workspace := wsOne }

/-- Run options over an empty workspace. -/
def roEmptyWs : RunOptions := { workspace := { workspaceId := "w", filesAndFolders := [] } }

/-- A selection of one rule of engine `engine1`. -/
def selOne : RuleSelection := ⟨[mkRule "engine1" "r1"]⟩

/-- A selection over the two engines `good` and `bad`. -/
def selGoodBad : RuleSelection := ⟨[mkRule "good" "r1", mkRule "bad" "r2"]⟩

/-- A selection over the two engines `A` and `B`. -/
def selAB : RuleSelection := ⟨[mkRule "A" "r1", mkRule "B" "r2"]⟩

/-- Engines for the single-failure scenario: `bad` throws, others
succeed with empty results. -/
def enginesGoodBad : String → Engine := fun n =>
  if n = "bad" then throwingEngine "bad" "boom" else okEngine n { violations := [] }

/-- Results carrying one violation for a rule that was never selected. -/
def unselectedRuleResults : EngineRunResults :=
  { violations := [{ ruleName := "zzz", message := "", codeLocations := [],
                     primaryLocationIndex := 0 }] }

/-- Engines for the validation-failure scenario: `B` returns results
that do not validate, others succeed with empty results. -/
def enginesAB : String → Engine := fun n =>
  if n = "B" then
    { name := "B", describeRules := fun _ => .ok [], runRules := fun _ _ => .ok unselectedRuleResults }
  else okEngine n { violations := [] }

/-- Engines for the event-order scenario. -/
def enginesOne : String → Engine := fun n => okEngine n { violations := [] }

/-- An engine reporting two rules with the same name. -/
def dupRuleEngine : Engine :=
  { name := "dup"
    describeRules := fun _ => .ok [{ name := "same", severityLevel := 1, tags := [] },
                                   { name := "same", severityLevel := 2, tags := [] }]
    runRules := fun _ _ => .ok { violations := [] } }

/-- A plugin declaring the engine names `e1` and `e2`. -/
def pluginE1E2 : PluginModel :=
  { getApiVersion := 1
    getAvailableEngineNames := .ok ["e1", "e2"]
    createEngine := fun n _ => .ok (okEngine n { violations := [] }) }

/-- An engines map with `e1` already registered. -/
def mapE1 : List (String × Engine) := [("e1", okEngine "e1" { violations := [] })]

/-- A violation with a negative primary location index over one code
location. -/
def vBadIndex : Violation :=
  { ruleName := "r1", message := "", primaryLocationIndex := -1,
    codeLocations := [{ file := "f.cls", startLine := 1, startColumn := 1 }] }

/-- Results containing `vBadIndex`. -/
def resultsBadIndex : EngineRunResults := { violations := [vBadIndex] }

/-- A code location with an absent `endLine` but a present, invalid
`endColumn` of 0. -/
def locEndColumnOnly : CodeLocation :=
  { file := "f.cls", startLine := 1, startColumn := 1, endColumn := some 0 }

/-- A violation whose only code location is `locEndColumnOnly`. -/
def vEndColumnOnly : Violation :=
  { ruleName := "r1", message := "", codeLocations := [locEndColumnOnly],
    primaryLocationIndex := 0 }

/-- A code location with equal start/end line and equal start/end
column. -/
def locSameLine : CodeLocation :=
  { file := "f.cls", startLine := 2, startColumn := 5, endLine := some 2, endColumn := some 5 }

/-- The engine run options extracted from `roOne`. -/
def optsOne : EngineRunOptions := { workspace := wsOne }

/-- The events of the concrete one-engine run used as a witness. -/
def eventsOne : List Event :=
  [Event.log .Debug (.RunningWithRunOptions optsOne),
   Event.engineProgress "engine1" 0,
   Event.log .Debug (.RunningEngineWithRules "engine1" ["r1"]),
   Event.engineProgress "engine1" 100,
   Event.engineResults (.normal "engine1" { violations := [] })]

/-- The aggregate entries of the concrete one-engine run used as a
witness. -/
def entriesOne : List EngineRunResultsEntry := [.normal "engine1" { violations := [] }]

/-- The per-engine results function of the single-failure witness. -/
def resEmpty : String → EngineRunResults := fun _ => { violations := [] }

/-- The entry function of the validation-failure witness. -/
def entryNormalEmpty : String → EngineRunResultsEntry :=
  fun n => .normal n { violations := [] }

/-
Theorems.
-/

/-- Sanity check relating the `NUMBER_MAX_VALUE` literal to its intended
form `(2 ^ 53 - 1) * 2 ^ 971`. -/
theorem NUMBER_MAX_VALUE_eq : NUMBER_MAX_VALUE = (((2 ^ 53 - 1) * 2 ^ 971 : ℕ) : ℚ) := by
  norm_num [NUMBER_MAX_VALUE]

/-- Characterisation of `isIntegerBetween` as a proposition. -/
theorem isIntegerBetween_iff (value leftBound rightBound : ℚ) :
    isIntegerBetween value leftBound rightBound = true ↔
      (value.den = 1 ∧ leftBound ≤ value ∧ value ≤ rightBound) := by
  simp [isIntegerBetween]
  tauto

/-- Bind of `Except` succeeds exactly when both steps succeed. -/
theorem except_bind_ok {ε α β : Type} (x : Except ε α) (f : α → Except ε β) (b : β) :
    (x >>= f) = .ok b ↔ ∃ a, x = .ok a ∧ f a = .ok b := by
  cases x <;> simp [Bind.bind, Except.bind]

/-- The primary-location-index validator succeeds exactly on an integer
index inside the bounds. -/
theorem validateViolationPrimaryLocationIndex_ok_iff (violation : Violation) (engineName : String) :
    validateViolationPrimaryLocationIndex violation engineName = .ok () ↔
      (violation.primaryLocationIndex.den = 1 ∧ 0 ≤ violation.primaryLocationIndex ∧
        violation.primaryLocationIndex ≤ (((violation.codeLocations.length : ℤ) - 1 : ℤ) : ℚ)) := by
  rw [← isIntegerBetween_iff]
  unfold validateViolationPrimaryLocationIndex
  cases hx : isIntegerBetween violation.primaryLocationIndex 0
      (((violation.codeLocations.length : ℤ) - 1 : ℤ) : ℚ) <;> simp [hx]

/-- A violation with a failing primary-location-index check poisons the
whole violation-list validation. -/
theorem validateViolationList_ne_ok (env : Env) (engineName : String)
    (ruleSelection : RuleSelection) (violation : Violation) (l : List Violation)
    (hmem : violation ∈ l)
    (hbad : ∀ u : Unit, validateViolationPrimaryLocationIndex violation engineName ≠ .ok u)
    (u : Unit) : validateViolationList env engineName ruleSelection l ≠ .ok u := by
  induction hmem with
  | head rest =>
    intro h
    simp only [validateViolationList, except_bind_ok] at h
    obtain ⟨a, _, b, hb, _⟩ := h
    exact hbad b hb
  | tail w hmem ih =>
    intro h
    simp only [validateViolationList, except_bind_ok] at h
    obtain ⟨a, _, b, _, c, _, hrest⟩ := h
    exact ih hrest

/-- C3: for every violation with `codeLocations` of length n, the
primary-location-index validation succeeds exactly when the index is an
integer in the closed interval from 0 to n - 1 (so any non-integer,
negative, or too-large index fails), and any violation failing this
check makes the whole engine result batch fail validation. -/
theorem primaryLocationIndex_validated (violation : Violation) (engineName : String) :
    (validateViolationPrimaryLocationIndex violation engineName = .ok () ↔
      (violation.primaryLocationIndex.den = 1 ∧ 0 ≤ violation.primaryLocationIndex ∧
        violation.primaryLocationIndex ≤ (((violation.codeLocations.length : ℤ) - 1 : ℤ) : ℚ))) ∧
    (∀ (env : Env) (ruleSelection : RuleSelection) (results : EngineRunResults),
      violation ∈ results.violations →
      ¬ (violation.primaryLocationIndex.den = 1 ∧ 0 ≤ violation.primaryLocationIndex ∧
          violation.primaryLocationIndex ≤ (((violation.codeLocations.length : ℤ) - 1 : ℤ) : ℚ)) →
      validateEngineRunResults env engineName results ruleSelection ≠ .ok ()) := by
  refine ⟨validateViolationPrimaryLocationIndex_ok_iff violation engineName, ?_⟩
  intro env ruleSelection results hmem hcond
  refine validateViolationList_ne_ok env engineName ruleSelection violation _ hmem ?_ ()
  intro u hu
  exact hcond ((validateViolationPrimaryLocationIndex_ok_iff violation engineName).mp hu)

/-- Witness for C3: a violation with index -1 over one code location is
rejected, poisoning its batch. -/
theorem primaryLocationIndex_validated_witness :
    validateEngineRunResults totalEnv "engine1" resultsBadIndex selOne ≠ .ok () :=
  (primaryLocationIndex_validated vBadIndex "engine1").2 totalEnv selOne resultsBadIndex
    (by decide) (by decide)

/-- C4: selecting rules with an empty selector list gives exactly the
same result (events and selection) as selecting with the one-element
list containing the default selector `Recommended`, for every matching
function, configuration, engines map and workspace. -/
theorem selectRules_empty_selectors_eq_recommended (matchesRuleSelector : Rule → String → Bool)
    (config : CodeAnalyzerConfig) (engines : List (String × Engine)) (cwdWorkspace : Workspace)
    (selectOptions : Option SelectOptions) :
    selectRules matchesRuleSelector config engines cwdWorkspace [] selectOptions =
      selectRules matchesRuleSelector config engines cwdWorkspace ["Recommended"] selectOptions :=
  rfl

/-- Counterexample to C5: appending a semicolon followed by whitespace
to the scenario's path start point string makes parsing fail with an
invalid-path-start-point error, instead of yielding the two path start
points after trimming. -/
theorem pathStartPoint_trailing_semicolon_whitespace_cex :
    extractEnginePathStartPoints fooEnv "src/Foo.cls#bar;baz;   " =
      .error (.InvalidPathStartPoint "src/Foo.cls#bar;baz;   ") ∧
    extractEnginePathStartPoints fooEnv "src/Foo.cls#bar;baz;   " ≠
      .ok [{ file := "src/Foo.cls", methodName := some "bar" },
           { file := "src/Foo.cls", methodName := some "baz" }] :=
  ⟨by decide, by decide⟩

/-- C5 (amended): the path start point string `src/Foo.cls#bar;baz`
yields the two path start points bar and baz; trailing whitespace
followed by semicolons is trimmed away, so appending a spaces-then-
semicolon suffix is equivalent; but appending a semicolon followed by
whitespace is rejected, since only the whitespace is trimmed and an
empty method name segment remains. -/
theorem pathStartPoint_scenario :
    extractEnginePathStartPoints fooEnv "src/Foo.cls#bar;baz" =
      .ok [{ file := "src/Foo.cls", methodName := some "bar" },
           { file := "src/Foo.cls", methodName := some "baz" }] ∧
    extractEnginePathStartPoints fooEnv "src/Foo.cls#bar;baz   ;" =
      .ok [{ file := "src/Foo.cls", methodName := some "bar" },
           { file := "src/Foo.cls", methodName := some "baz" }] ∧
    extractEnginePathStartPoints fooEnv "src/Foo.cls#bar;baz;   " =
      .error (.InvalidPathStartPoint "src/Foo.cls#bar;baz;   ") :=
  ⟨by decide, by decide, by decide⟩

/-- Counterexample to C8: a code location with no `endLine` but a
present `endColumn` of 0 — not an integer greater or equal 1 — passes
the code-location validation, because the source only checks
`endColumn` inside the `endLine` branch. -/
theorem endColumn_without_endLine_unchecked_cex :
    vEndColumnOnly.codeLocations = [locEndColumnOnly] ∧
    locEndColumnOnly.endColumn = some 0 ∧
    isValidLineOrColumn 0 = false ∧
    validateViolationCodeLocations totalEnv vEndColumnOnly "engine1" = .ok () :=
  ⟨rfl, rfl, by decide, by decide⟩

/-- C8 (amended): for a code location whose file exists and is a regular
file, validation succeeds exactly when `startLine` and `startColumn`
are valid (integers greater or equal 1, at most `Number.MAX_VALUE`),
and, whenever `endLine` is present, `endLine` is valid and at least
`startLine`, and whenever additionally `endColumn` is present,
`endColumn` is valid and, on equal start and end line, at least
`startColumn` (so an equal `endColumn` passes and a smaller one fails);
when `endLine` is absent, `endColumn` is not checked at all. -/
theorem codeLocation_validation_characterised (env : Env) (engineName ruleName : String)
    (loc : CodeLocation)
    (hexists : env.fs.existsSync (env.toAbsolutePath loc.file) = true)
    (hfile : env.fs.isFile (env.toAbsolutePath loc.file) = true) :
    validateSingleCodeLocation env engineName ruleName loc = .ok () ↔
      (isValidLineOrColumn loc.startLine = true ∧ isValidLineOrColumn loc.startColumn = true ∧
        ∀ endLine, loc.endLine = some endLine →
          (isValidLineOrColumn endLine = true ∧ loc.startLine ≤ endLine ∧
            ∀ endColumn, loc.endColumn = some endColumn →
              (isValidLineOrColumn endColumn = true ∧
                (endLine = loc.startLine → loc.startColumn ≤ endColumn)))) := by
  simp only [validateSingleCodeLocation]
  rw [hexists, hfile]
  cases h1 : isValidLineOrColumn loc.startLine
  · simp [h1]
  cases h2 : isValidLineOrColumn loc.startColumn
  · simp [h1, h2]
  cases hel : loc.endLine with
  | none => simp [h1, h2]
  | some endLine =>
    cases h3 : isValidLineOrColumn endLine
    · simp [h1, h2, h3]
    by_cases h4 : endLine < loc.startLine
    · simp [h1, h2, h3, h4, not_le.mpr h4]
    cases hec : loc.endColumn with
    | none => simp [h1, h2, h3, h4, not_lt.mp h4]
    | some endColumn =>
      cases h5 : isValidLineOrColumn endColumn
      · simp [h1, h2, h3, h4, h5]
      by_cases h6 : endLine = loc.startLine ∧ endColumn < loc.startColumn
      · simp [h1, h2, h3, h4, h5, h6, h6.1, not_le.mpr h6.2]
      · have h6i := h6
        simp only [not_and, not_lt] at h6i
        simp [h1, h2, h3, h4, h5, h6, not_lt.mp h4]
        exact h6i

/-- Witness for C8 (amended): a location with equal start/end line and
equal start/end column satisfies the characterisation. -/
theorem codeLocation_validation_characterised_witness :
    validateSingleCodeLocation totalEnv "engine1" "r1" locSameLine = .ok () ↔
      (isValidLineOrColumn locSameLine.startLine = true ∧
        isValidLineOrColumn locSameLine.startColumn = true ∧
        ∀ endLine, locSameLine.endLine = some endLine →
          (isValidLineOrColumn endLine = true ∧ locSameLine.startLine ≤ endLine ∧
            ∀ endColumn, locSameLine.endColumn = some endColumn →
              (isValidLineOrColumn endColumn = true ∧
                (endLine = locSameLine.startLine → locSameLine.startColumn ≤ endColumn)))) :=
  codeLocation_validation_characterised totalEnv "engine1" "r1" locSameLine rfl rfl

/-- A malformed path start point string anywhere in the list makes the
whole parse fail. -/
theorem extractAllPathStartPoints_err (env : Env) (s : String) (m : Msg) :
    ∀ strs : List String, s ∈ strs → extractEnginePathStartPoints env s = .error m →
      ∃ m2, extractAllPathStartPoints env strs = .error m2 := by
  intro strs hmem herr
  induction hmem with
  | head rest => exact ⟨m, by simp [extractAllPathStartPoints, herr, Bind.bind, Except.bind]⟩
  | tail b hmem ih =>
    obtain ⟨m2, hm2⟩ := ih
    cases hx : extractEnginePathStartPoints env b with
    | error e => exact ⟨e, by simp [extractAllPathStartPoints, hx, Bind.bind, Except.bind]⟩
    | ok pts => exact ⟨m2, by simp [extractAllPathStartPoints, hx, hm2, Bind.bind, Except.bind]⟩

/-- The inside-workspace check succeeds exactly when every point's file
is underneath the workspace. -/
theorem checkPointsInside_ok_iff (env : Env) (folders : List String) (points : List PathPoint) :
    checkPointsInside env folders points = .ok () ↔
      ∀ p ∈ points, fileIsUnderneath env p.file folders = true := by
  induction points with
  | nil => simp [checkPointsInside]
  | cons p rest ih =>
    cases hu : fileIsUnderneath env p.file folders
    · simp [checkPointsInside, hu]
    · simp [checkPointsInside, hu, ih]

/-- A failing inside-workspace check names an offending point's file and
the workspace's files-and-folders list. -/
theorem checkPointsInside_err (env : Env) (folders : List String) :
    ∀ (points : List PathPoint) (m : Msg), checkPointsInside env folders points = .error m →
      ∃ p, p ∈ points ∧ fileIsUnderneath env p.file folders = false ∧
        m = .PathStartPointMustBeInsideWorkspace p.file folders := by
  intro points
  induction points with
  | nil => intro m h; simp [checkPointsInside] at h
  | cons p rest ih =>
    intro m h
    cases hu : fileIsUnderneath env p.file folders
    · refine ⟨p, List.mem_cons_self p rest, hu, ?_⟩
      simp [checkPointsInside, hu] at h
      exact h.symm
    · simp only [checkPointsInside, hu, Bool.not_true, Bool.false_eq_true, if_false] at h
      obtain ⟨q, hq, hfu, hm⟩ := ih m h
      exact ⟨q, List.mem_cons_of_mem p hq, hfu, hm⟩

/-- C7: a run over an empty workspace, or with a malformed path start
point, or with a path start point outside the workspace raises the
input error synchronously — the run returns the error with an empty
event list (no progress events) and without consulting any engine. -/
theorem run_input_errors_fail_fast :
    (∀ (env : Env) (engines : String → Engine) (sel : RuleSelection) (ro : RunOptions) (m : Msg),
      extractEngineRunOptions env ro = .error m →
      run env engines sel ro = ([], .error m)) ∧
    (∀ (env : Env) (ro : RunOptions), ro.workspace.getFilesAndFolders = [] →
      extractEngineRunOptions env ro = .error .AtLeastOneFileOrFolderMustBeIncluded) ∧
    (∀ (env : Env) (s : String), 2 < (jsSplit s '#').length →
      extractEnginePathStartPoints env s = .error (.InvalidPathStartPoint s)) ∧
    (∀ (env : Env) (ro : RunOptions) (strs : List String) (s : String) (m : Msg),
      ro.pathStartPoints = some strs → s ∈ strs →
      extractEnginePathStartPoints env s = .error m →
      ∃ m2, extractEngineRunOptions env ro = .error m2) ∧
    (∀ (env : Env) (folders : List String) (points : List PathPoint),
      checkPointsInside env folders points = .ok () ↔
        ∀ p ∈ points, fileIsUnderneath env p.file folders = true) ∧
    (∀ (env : Env) (folders : List String) (points : List PathPoint) (m : Msg),
      checkPointsInside env folders points = .error m →
      ∃ p, p ∈ points ∧ fileIsUnderneath env p.file folders = false ∧
        m = .PathStartPointMustBeInsideWorkspace p.file folders) := by
  refine ⟨?_, ?_, ?_, ?_, checkPointsInside_ok_iff, checkPointsInside_err⟩
  · intro env engines sel ro m h
    simp [run, h]
  · intro env ro h
    simp [extractEngineRunOptions, h, throw, throwThe, MonadExceptOf.throw, Bind.bind, Except.bind]
  · intro env s h
    have h1 : (jsSplit s '#').length ≠ 1 := by omega
    have h2 : (jsSplit s '#').length > 2 := h
    simp [extractEnginePathStartPoints, h1, h2]
  · intro env ro strs s m hps hmem herr
    by_cases hws : ro.workspace.getFilesAndFolders.length = 0
    · refine ⟨.AtLeastOneFileOrFolderMustBeIncluded, ?_⟩
      simp [extractEngineRunOptions, hws, throw, throwThe, MonadExceptOf.throw,
        Bind.bind, Except.bind]
    · obtain ⟨m2, hall⟩ := extractAllPathStartPoints_err env s m strs hmem herr
      refine ⟨m2, ?_⟩
      have hlen : strs.length > 0 := by
        cases strs with
        | nil => cases hmem
        | cons a l => simp
      simp [extractEngineRunOptions, hws, hps, hlen, hall, throw, throwThe,
        MonadExceptOf.throw, Bind.bind, Except.bind, pure, Except.pure]

/-- Witness for C7: a run over an empty workspace fails synchronously
with an empty event list, and a doubly `#`-separated path start point
string is rejected as malformed. -/
theorem run_input_errors_fail_fast_witness :
    run totalEnv enginesOne selOne roEmptyWs = ([], .error .AtLeastOneFileOrFolderMustBeIncluded) ∧
    extractEnginePathStartPoints totalEnv "a#b#c" = .error (.InvalidPathStartPoint "a#b#c") :=
  ⟨run_input_errors_fail_fast.1 totalEnv enginesOne selOne roEmptyWs
      Msg.AtLeastOneFileOrFolderMustBeIncluded (by decide),
   run_input_errors_fail_fast.2.2.1 totalEnv "a#b#c" (by decide)⟩

/-- Lookup in an association list is stable under appending entries on
the right when the key is already bound. -/
theorem lookup_append_some {α β : Type} [BEq α] {l1 : List (α × β)} (l2 : List (α × β))
    {k : α} {v : β} (h : l1.lookup k = some v) : (l1 ++ l2).lookup k = some v := by
  induction l1 with
  | nil => simp [List.lookup] at h
  | cons p rest ih =>
    obtain ⟨a, b⟩ := p
    simp only [List.lookup, List.cons_append] at h ⊢
    cases hk : k == a
    · rw [hk] at h
      exact ih h
    · rw [hk] at h
      exact h

/-- Registering an already-registered name only emits the duplicate
error log event and leaves the engines map unchanged. -/
theorem createAndAddEngineIfValid_dup (config : CodeAnalyzerConfig)
    (enginesMap : List (String × Engine)) (engineName : String) (plugin : PluginModel)
    (h : (enginesMap.lookup engineName).isSome = true) :
    createAndAddEngineIfValid config enginesMap engineName plugin =
      ([Event.log .Error (.DuplicateEngine engineName)], enginesMap) := by
  simp [createAndAddEngineIfValid, h]

/-- One registration step never disturbs an existing binding. -/
theorem createAndAddEngineIfValid_preserves (config : CodeAnalyzerConfig)
    (enginesMap : List (String × Engine)) (engineName : String) (plugin : PluginModel)
    (k : String) (e : Engine) (h : enginesMap.lookup k = some e) :
    ((createAndAddEngineIfValid config enginesMap engineName plugin).2).lookup k = some e := by
  unfold createAndAddEngineIfValid
  by_cases h1 : (enginesMap.lookup engineName).isSome = true
  · simp [h1, h]
  · simp only [h1, Bool.false_eq_true, if_false]
    cases hc : plugin.createEngine engineName (config.getEngineConfigFor engineName) with
    | error err => simpa using h
    | ok engine =>
      by_cases h2 : engineName ≠ engine.name
      · simp [h2, h]
      · simp only [h2, if_false]
        exact lookup_append_some _ h

/-- The registration pass never disturbs an existing binding. -/
theorem addAllEngines_preserves (config : CodeAnalyzerConfig) (plugin : PluginModel) :
    ∀ (names : List String) (enginesMap : List (String × Engine)) (k : String) (e : Engine),
      enginesMap.lookup k = some e →
      ((addAllEngines config plugin enginesMap names).2).lookup k = some e := by
  intro names
  induction names with
  | nil => intro m k e h; simpa [addAllEngines] using h
  | cons n rest ih =>
    intro m k e h
    simp only [addAllEngines]
    exact ih _ k e (createAndAddEngineIfValid_preserves config m n plugin k e h)

/-- The registration pass over names containing an already-bound name
emits the duplicate-engine error log event. -/
theorem addAllEngines_dup_event (config : CodeAnalyzerConfig) (plugin : PluginModel) :
    ∀ (names : List String) (enginesMap : List (String × Engine)) (k : String) (e : Engine),
      enginesMap.lookup k = some e → k ∈ names →
      Event.log .Error (.DuplicateEngine k) ∈ (addAllEngines config plugin enginesMap names).1 := by
  intro names
  induction names with
  | nil => intro m k e h hmem; cases hmem
  | cons n rest ih =>
    intro m k e h hmem
    simp only [addAllEngines]
    rcases List.mem_cons.mp hmem with rfl | hmem
    · rw [createAndAddEngineIfValid_dup config m k plugin (by simp [h])]
      exact List.mem_append_left _ (List.mem_singleton.mpr rfl)
    · refine List.mem_append_right _ ?_
      exact ih _ k e (createAndAddEngineIfValid_preserves config m n plugin k e h) hmem

/-- C6: adding a plugin that declares an engine name that is already
registered does not throw; it emits a duplicate-engine error log event,
retains the originally registered engine instance unchanged, and the
duplicate name's own registration step leaves the map untouched (the
remaining declared names are still processed on the unchanged map). -/
theorem addEnginePlugin_duplicate_engine_preserved (config : CodeAnalyzerConfig)
    (enginesMap : List (String × Engine)) (plugin : PluginModel) (engineName : String)
    (eng0 : Engine) (names : List String)
    (hreg : enginesMap.lookup engineName = some eng0)
    (hnames : plugin.getAvailableEngineNames = .ok names)
    (hmem : engineName ∈ names) :
    ∃ events engines2,
      addEnginePlugin config enginesMap plugin = (events, .ok engines2) ∧
      engines2.lookup engineName = some eng0 ∧
      Event.log .Error (.DuplicateEngine engineName) ∈ events ∧
      createAndAddEngineIfValid config enginesMap engineName plugin =
        ([Event.log .Error (.DuplicateEngine engineName)], enginesMap) := by
  have hadd : addEnginePlugin config enginesMap plugin =
      ((if ENGINE_API_VERSION < plugin.getApiVersion then
          [Event.log .Warn (.EngineFromFutureApiDetected plugin.getApiVersion
            ("\"" ++ String.intercalate "\",\"" names ++ "\"") ENGINE_API_VERSION)]
        else []) ++ (addAllEngines config plugin enginesMap names).1,
        .ok (addAllEngines config plugin enginesMap names).2) := by
    simp only [addEnginePlugin, hnames]
  refine ⟨_, _, hadd, ?_, ?_, createAndAddEngineIfValid_dup config enginesMap engineName plugin
    (by simp [hreg])⟩
  · exact addAllEngines_preserves config plugin names enginesMap engineName eng0 hreg
  · refine List.mem_append_right _ ?_
    exact addAllEngines_dup_event config plugin names enginesMap engineName eng0 hreg hmem

/-- Witness for C6: adding a plugin declaring `e1` and `e2` to a map
already holding `e1`. -/
theorem addEnginePlugin_duplicate_engine_preserved_witness :
    ∃ events engines2,
      addEnginePlugin emptyConfig mapE1 pluginE1E2 = (events, .ok engines2) ∧
      engines2.lookup "e1" = some (okEngine "e1" { violations := [] }) ∧
      Event.log .Error (.DuplicateEngine "e1") ∈ events ∧
      createAndAddEngineIfValid emptyConfig mapE1 "e1" pluginE1E2 =
        ([Event.log .Error (.DuplicateEngine "e1")], mapE1) :=
  addEnginePlugin_duplicate_engine_preserved emptyConfig mapE1 pluginE1E2 "e1"
    (okEngine "e1" { violations := [] }) ["e1", "e2"] rfl rfl (by simp)

/-- A successful duplicate-name check means the reported rule names are
distinct (and none of them was seen before). -/
theorem checkDuplicateRuleNames_ok_nodup (engineName : String) :
    ∀ (rds : List RuleDescription) (seen : List String),
      checkDuplicateRuleNames engineName seen rds = .ok () →
      ((rds.map RuleDescription.name).Nodup ∧
        ∀ n ∈ rds.map RuleDescription.name, n ∉ seen) := by
  intro rds
  induction rds with
  | nil => intro seen _; simp
  | cons rd rest ih =>
    intro seen h
    simp only [checkDuplicateRuleNames] at h
    split at h
    · simp at h
    next hc =>
      have hcm : rd.name ∉ seen := by simpa using hc
      obtain ⟨hnd, hns⟩ := ih (rd.name :: seen) h
      rw [List.map_cons]
      constructor
      · refine List.nodup_cons.mpr ⟨?_, hnd⟩
        intro hmem
        exact (hns rd.name hmem) (List.mem_cons_self rd.name seen)
      · intro n hn
        rcases List.mem_cons.mp hn with rfl | hn
        · exact hcm
        · intro hseen
          exact (hns n hn) (List.mem_cons_of_mem _ hseen)

/-- The duplicate-name check either succeeds or fails with the
duplicate-rules message naming the engine and one of the reported rule
names. -/
theorem checkDuplicateRuleNames_shape (engineName : String) :
    ∀ (rds : List RuleDescription) (seen : List String),
      checkDuplicateRuleNames engineName seen rds = .ok () ∨
        ∃ r, r ∈ rds.map RuleDescription.name ∧
          checkDuplicateRuleNames engineName seen rds =
            .error (.EngineReturnedMultipleRulesWithSameName engineName r) := by
  intro rds
  induction rds with
  | nil => intro seen; exact .inl rfl
  | cons rd rest ih =>
    intro seen
    simp only [checkDuplicateRuleNames]
    split
    · exact .inr ⟨rd.name, by simp, rfl⟩
    · rcases ih (rd.name :: seen) with hok | ⟨r, hr, herr⟩
      · exact .inl hok
      · exact .inr ⟨r, by rw [List.map_cons]; exact List.mem_cons_of_mem _ hr, herr⟩

/-- C9: an engine reporting two rule descriptions with the same name
makes the catalog build for that engine fail with the contract-
violation error naming the engine, with no events emitted — in
particular before any override is applied — and the failure propagates
to rule selection over that engine. -/
theorem getAllRulesFor_duplicate_rule_names (config : CodeAnalyzerConfig) (engine : Engine)
    (engineName : String) (workspace : Workspace) (rds : List RuleDescription)
    (hdesc : engine.describeRules workspace = .ok rds)
    (hdup : ¬ (rds.map RuleDescription.name).Nodup) :
    ∃ r, r ∈ rds.map RuleDescription.name ∧
      getAllRulesFor config engine engineName workspace =
        ([], .error (.EngineReturnedMultipleRulesWithSameName engineName r)) ∧
      ∀ (matchesRuleSelector : Rule → String → Bool) (cwdWorkspace : Workspace)
        (selectors : List String),
        selectRules matchesRuleSelector config [(engineName, engine)] cwdWorkspace selectors
          (some { workspace := workspace }) =
          ([], .error (.EngineReturnedMultipleRulesWithSameName engineName r)) := by
  rcases checkDuplicateRuleNames_shape engineName rds [] with hok | ⟨r, hr, herr⟩
  · exact absurd (checkDuplicateRuleNames_ok_nodup engineName rds [] hok).1 hdup
  · refine ⟨r, hr, ?_, ?_⟩
    · simp [getAllRulesFor, hdesc, validateRuleDescriptions, herr]
    · intro matchesRuleSelector cwdWorkspace selectors
      simp [selectRules, getAllRulesList, getAllRulesFor, hdesc, validateRuleDescriptions, herr,
        Except.map]

/-- Witness for C9: an engine reporting the rule name `same` twice. -/
theorem getAllRulesFor_duplicate_rule_names_witness :
    ∃ r, r ∈ ([{ name := "same", severityLevel := 1, tags := [] },
               { name := "same", severityLevel := 2, tags := [] }] :
                 List RuleDescription).map RuleDescription.name ∧
      getAllRulesFor emptyConfig dupRuleEngine "dup" wsOne =
        ([], .error (.EngineReturnedMultipleRulesWithSameName "dup" r)) ∧
      ∀ (matchesRuleSelector : Rule → String → Bool) (cwdWorkspace : Workspace)
        (selectors : List String),
        selectRules matchesRuleSelector emptyConfig [("dup", dupRuleEngine)] cwdWorkspace selectors
          (some { workspace := wsOne }) =
          ([], .error (.EngineReturnedMultipleRulesWithSameName "dup" r)) :=
  getAllRulesFor_duplicate_rule_names emptyConfig dupRuleEngine "dup" wsOne
    [{ name := "same", severityLevel := 1, tags := [] },
     { name := "same", severityLevel := 2, tags := [] }] rfl (by decide)

/-- The debug log is the only event emitted while the engine itself is
run and its results validated. -/
theorem runEngineAndValidateResults_fst (env : Env) (engines : String → Engine)
    (engineName : String) (sel : RuleSelection) (opts : EngineRunOptions) :
    (runEngineAndValidateResults env engines engineName sel opts).1 =
      [Event.log .Debug (.RunningEngineWithRules engineName (rulesToRunFor sel engineName))] :=
  rfl

/-- Running and validating one engine only consults that engine's entry
of the engines map. -/
theorem runEngineAndValidateResults_congr (env : Env) (engines engines2 : String → Engine)
    (engineName : String) (sel : RuleSelection) (opts : EngineRunOptions)
    (h : engines2 engineName = engines engineName) :
    runEngineAndValidateResults env engines2 engineName sel opts =
      runEngineAndValidateResults env engines engineName sel opts := by
  simp [runEngineAndValidateResults, h]

/-- When every engine of the order completes with a known entry, the run
loop emits exactly the per-engine event blocks and aggregates exactly
the per-engine entries, in order. -/
theorem runLoop_all_ok (env : Env) (engines : String → Engine) (sel : RuleSelection)
    (opts : EngineRunOptions) (entry : String → EngineRunResultsEntry) :
    ∀ order : List String,
      (∀ n ∈ order, (runEngineAndValidateResults env engines n sel opts).2 = .ok (entry n)) →
      runLoop env engines sel opts order =
        ((order.map (fun n => engineBlock sel n (entry n))).flatten, .ok (order.map entry)) := by
  intro order
  induction order with
  | nil => intro _; rfl
  | cons n rest ih =>
    intro h
    have hn := h n (List.mem_cons_self n rest)
    have hrest := fun k hk => h k (List.mem_cons_of_mem n hk)
    simp only [runLoop, hn, ih hrest, runEngineAndValidateResults_fst]
    simp [engineBlock]

/-- The run loop over a prefix of completing engines followed by a
remainder: the prefix contributes its event blocks and entries, and the
remainder's outcome decides the overall outcome. -/
theorem runLoop_append_ok (env : Env) (engines : String → Engine) (sel : RuleSelection)
    (opts : EngineRunOptions) (entry : String → EngineRunResultsEntry) :
    ∀ (pre rest : List String),
      (∀ n ∈ pre, (runEngineAndValidateResults env engines n sel opts).2 = .ok (entry n)) →
      runLoop env engines sel opts (pre ++ rest) =
        ((pre.map (fun n => engineBlock sel n (entry n))).flatten ++
            (runLoop env engines sel opts rest).1,
          match (runLoop env engines sel opts rest).2 with
          | .error m => .error m
          | .ok es => .ok (pre.map entry ++ es)) := by
  intro pre
  induction pre with
  | nil =>
    intro rest _
    rcases hr : runLoop env engines sel opts rest with ⟨evs, res⟩
    cases res <;> simp [hr]
  | cons n pre ih =>
    intro rest h
    have hn := h n (List.mem_cons_self n pre)
    have hpre := fun k hk => h k (List.mem_cons_of_mem n hk)
    have hih := ih rest hpre
    simp only [List.cons_append, runLoop, hn, hih, runEngineAndValidateResults_fst]
    rcases hr : runLoop env engines sel opts rest with ⟨evs, res⟩
    cases res <;> simp [hih, hr, engineBlock]

/-- A run loop that returns an aggregate emitted exactly the per-engine
event blocks of the order zipped with the aggregated entries, each
entry being the engine's own completed result. -/
theorem runLoop_ok_shape (env : Env) (engines : String → Engine) (sel : RuleSelection)
    (opts : EngineRunOptions) :
    ∀ (order : List String) (events : List Event) (entries : List EngineRunResultsEntry),
      runLoop env engines sel opts order = (events, .ok entries) →
      entries.length = order.length ∧
      events = ((order.zip entries).map (fun p => engineBlock sel p.1 p.2)).flatten ∧
      ∀ p ∈ order.zip entries,
        (runEngineAndValidateResults env engines p.1 sel opts).2 = .ok p.2 := by
  intro order
  induction order with
  | nil =>
    intro events entries h
    simp only [runLoop, Prod.mk.injEq] at h
    obtain ⟨h1, h2⟩ := h
    simp at h2
    subst h1
    subst h2
    simp
  | cons n rest ih =>
    intro events entries h
    simp only [runLoop] at h
    cases hr : (runEngineAndValidateResults env engines n sel opts).2 with
    | error m =>
      rw [hr] at h
      simp [Prod.mk.injEq] at h
    | ok e =>
      rw [hr] at h
      rcases ht : runLoop env engines sel opts rest with ⟨tevs, tres⟩
      rw [ht] at h
      cases tres with
      | error m => simp [Prod.mk.injEq] at h
      | ok tes =>
        simp only [Prod.mk.injEq, Except.ok.injEq] at h
        obtain ⟨h1, h2⟩ := h
        obtain ⟨hlen, hevs, hmem⟩ := ih tevs tes ht
        subst h1
        subst h2
        refine ⟨by simp [hlen], ?_, ?_⟩
        · simp [runEngineAndValidateResults_fst, hevs, engineBlock]
        · intro p hp
          rcases List.mem_cons.mp hp with rfl | hp
          · exact hr
          · exact hmem p hp

/-- C2: whenever a run returns an aggregate, its engines were processed
strictly sequentially in the selection's engine order: after the
initial run-options debug log, the event stream is exactly, for each
engine in order, a progress event at 0, the debug log marking the
engine's invocation, a progress event at 100, and a results event
carrying that engine's aggregated entry — with no interleaving across
engines — and the aggregate has one entry per engine in that order. -/
theorem run_sequential_event_order (env : Env) (engines : String → Engine)
    (sel : RuleSelection) (ro : RunOptions) (events : List Event)
    (entries : List EngineRunResultsEntry)
    (h : run env engines sel ro = (events, .ok entries)) :
    ∃ opts, extractEngineRunOptions env ro = .ok opts ∧
      entries.length = sel.getEngineNames.length ∧
      events = Event.log .Debug (.RunningWithRunOptions opts) ::
        ((sel.getEngineNames.zip entries).map (fun p => engineBlock sel p.1 p.2)).flatten ∧
      ∀ p ∈ sel.getEngineNames.zip entries,
        (runEngineAndValidateResults env engines p.1 sel opts).2 = .ok p.2 := by
  cases hx : extractEngineRunOptions env ro with
  | error m =>
    simp only [run, hx, Prod.mk.injEq] at h
    exact absurd h.2 (by simp)
  | ok opts =>
    simp only [run, hx, Prod.mk.injEq] at h
    obtain ⟨h1, h2⟩ := h
    have hloop : runLoop env engines sel opts sel.getEngineNames =
        ((runLoop env engines sel opts sel.getEngineNames).1, .ok entries) := by
      rw [← h2]
    obtain ⟨hlen, hevs, hmem⟩ :=
      runLoop_ok_shape env engines sel opts sel.getEngineNames _ entries hloop
    exact ⟨opts, rfl, hlen, by rw [← h1, hevs], hmem⟩

/-- Witness for C2: a concrete one-engine run produces exactly the
expected event sequence and aggregate. -/
theorem run_sequential_event_order_witness :
    ∃ opts, extractEngineRunOptions totalEnv roOne = .ok opts ∧
      entriesOne.length = selOne.getEngineNames.length ∧
      eventsOne = Event.log .Debug (.RunningWithRunOptions opts) ::
        ((selOne.getEngineNames.zip entriesOne).map
          (fun p => engineBlock selOne p.1 p.2)).flatten ∧
      ∀ p ∈ selOne.getEngineNames.zip entriesOne,
        (runEngineAndValidateResults totalEnv enginesOne p.1 selOne opts).2 = .ok p.2 :=
  run_sequential_event_order totalEnv enginesOne selOne roOne eventsOne entriesOne (by decide)

/-- C1: when among the selection's engines exactly the engine named
`failName` throws from `runRules` and every other engine returns
validating results, the run does not propagate the exception: it
returns an aggregate with one entry per selected engine in order, the
failing engine's entry being the unexpected-error marker carrying the
causing error, and every other engine's entry being its normal
validated results. -/
theorem run_isolates_single_engine_failure (env : Env) (engines : String → Engine)
    (sel : RuleSelection) (ro : RunOptions) (opts : EngineRunOptions) (failName : String)
    (error : String) (res : String → EngineRunResults)
    (hextract : extractEngineRunOptions env ro = .ok opts)
    (hmem : failName ∈ sel.getEngineNames)
    (hfail : (engines failName).runRules (rulesToRunFor sel failName) opts = .error error)
    (hok : ∀ n ∈ sel.getEngineNames, n ≠ failName →
      (engines n).runRules (rulesToRunFor sel n) opts = .ok (res n) ∧
      validateEngineRunResults env n (res n) sel = .ok ()) :
    run env engines sel ro =
      (Event.log .Debug (.RunningWithRunOptions opts) ::
        (sel.getEngineNames.map
          (fun n => engineBlock sel n (runEntryFor failName error res n))).flatten,
        .ok (sel.getEngineNames.map (runEntryFor failName error res))) ∧
    (sel.getEngineNames.map (runEntryFor failName error res)).length =
      sel.getEngineNames.length ∧
    runEntryFor failName error res failName = .unexpectedError failName error ∧
    ∀ n, n ≠ failName → runEntryFor failName error res n = .normal n (res n) := by
  have hall : ∀ n ∈ sel.getEngineNames,
      (runEngineAndValidateResults env engines n sel opts).2 =
        .ok (runEntryFor failName error res n) := by
    intro n hn
    by_cases hf : n = failName
    · subst hf
      simp [runEngineAndValidateResults, hfail, runEntryFor]
    · obtain ⟨h1, h2⟩ := hok n hn hf
      simp [runEngineAndValidateResults, h1, h2, runEntryFor, hf]
  refine ⟨?_, by simp, by simp [runEntryFor], fun n hn => by simp [runEntryFor, hn]⟩
  have hloop := runLoop_all_ok env engines sel opts (runEntryFor failName error res)
    sel.getEngineNames hall
  simp [run, hextract, hloop]

/-- Witness for C1: of the two selected engines, `bad` throws and `good`
returns empty validating results; the aggregate has both entries. -/
theorem run_isolates_single_engine_failure_witness :
    run totalEnv enginesGoodBad selGoodBad roOne =
      (Event.log .Debug (.RunningWithRunOptions optsOne) ::
        (selGoodBad.getEngineNames.map
          (fun n => engineBlock selGoodBad n (runEntryFor "bad" "boom" resEmpty n))).flatten,
        .ok (selGoodBad.getEngineNames.map (runEntryFor "bad" "boom" resEmpty))) ∧
    (selGoodBad.getEngineNames.map (runEntryFor "bad" "boom" resEmpty)).length =
      selGoodBad.getEngineNames.length ∧
    runEntryFor "bad" "boom" resEmpty "bad" = .unexpectedError "bad" "boom" ∧
    ∀ n, n ≠ "bad" → runEntryFor "bad" "boom" resEmpty n = .normal n (resEmpty n) :=
  run_isolates_single_engine_failure totalEnv enginesGoodBad selGoodBad roOne optsOne
    "bad" "boom" resEmpty (by decide) (by decide) (by decide) (by decide)

/-- C10: when an engine's `runRules` returns normally but the returned
results fail validation, the run propagates the validation error: the
event stream stops right after that engine's progress-0 and invocation
log (no results event for it), nothing is aggregated, and the engines
after it in the selection order are never consulted — the outcome is
unchanged under arbitrary replacement of the later engines. -/
theorem run_propagates_validation_error (env : Env) (engines : String → Engine)
    (sel : RuleSelection) (ro : RunOptions) (opts : EngineRunOptions) (pre post : List String)
    (k : String) (m : Msg) (apiResults : EngineRunResults)
    (entry : String → EngineRunResultsEntry)
    (horder : sel.getEngineNames = pre ++ k :: post)
    (hextract : extractEngineRunOptions env ro = .ok opts)
    (hpre : ∀ n ∈ pre, (runEngineAndValidateResults env engines n sel opts).2 = .ok (entry n))
    (hrun : (engines k).runRules (rulesToRunFor sel k) opts = .ok apiResults)
    (hval : validateEngineRunResults env k apiResults sel = .error m) :
    run env engines sel ro =
      (Event.log .Debug (.RunningWithRunOptions opts) ::
        ((pre.map (fun n => engineBlock sel n (entry n))).flatten ++
          [Event.engineProgress k 0,
           Event.log .Debug (.RunningEngineWithRules k (rulesToRunFor sel k))]),
        .error m) ∧
    (∀ engines2 : String → Engine,
      (∀ n ∈ pre, engines2 n = engines n) → engines2 k = engines k →
      run env engines2 sel ro = run env engines sel ro) := by
  have key : ∀ E : String → Engine,
      (∀ n ∈ pre, (runEngineAndValidateResults env E n sel opts).2 = .ok (entry n)) →
      (E k).runRules (rulesToRunFor sel k) opts = .ok apiResults →
      run env E sel ro =
        (Event.log .Debug (.RunningWithRunOptions opts) ::
          ((pre.map (fun n => engineBlock sel n (entry n))).flatten ++
            [Event.engineProgress k 0,
             Event.log .Debug (.RunningEngineWithRules k (rulesToRunFor sel k))]),
          .error m) := by
    intro E hp hr
    have hk2 : (runEngineAndValidateResults env E k sel opts).2 = .error m := by
      simp [runEngineAndValidateResults, hr, hval]
    have hloop : runLoop env E sel opts (k :: post) =
        ([Event.engineProgress k 0,
          Event.log .Debug (.RunningEngineWithRules k (rulesToRunFor sel k))], .error m) := by
      simp [runLoop, hk2, runEngineAndValidateResults_fst]
    have happ := runLoop_append_ok env E sel opts entry pre (k :: post) hp
    rw [hloop] at happ
    simp only [run, hextract, horder, happ]
    try simp
  refine ⟨key engines hpre hrun, ?_⟩
  intro engines2 ha hk
  rw [key engines2
      (fun n hn => by
        rw [runEngineAndValidateResults_congr env engines engines2 n sel opts (ha n hn)]
        exact hpre n hn)
      (by rw [hk]; exact hrun),
    key engines hpre hrun]

/-- Witness for C10: engine `A` completes, engine `B` returns a
violation for an unselected rule; the run stops with the validation
error after `B`'s progress-0 and invocation log. -/
theorem run_propagates_validation_error_witness :
    run totalEnv enginesAB selAB roOne =
      (Event.log .Debug (.RunningWithRunOptions optsOne) ::
        ((["A"].map (fun n => engineBlock selAB n (entryNormalEmpty n))).flatten ++
          [Event.engineProgress "B" 0,
           Event.log .Debug (.RunningEngineWithRules "B" (rulesToRunFor selAB "B"))]),
        .error (.EngineReturnedViolationForUnselectedRule "B" "zzz")) ∧
    (∀ engines2 : String → Engine,
      (∀ n ∈ ["A"], engines2 n = enginesAB n) → engines2 "B" = enginesAB "B" →
      run totalEnv engines2 selAB roOne = run totalEnv enginesAB selAB roOne) :=
  run_propagates_validation_error totalEnv enginesAB selAB roOne optsOne ["A"] [] "B"
    (.EngineReturnedViolationForUnselectedRule "B" "zzz") unselectedRuleResults
    entryNormalEmpty (by decide) (by decide) (by decide) (by decide) (by decide)

end CodeAnalyzerCore
